import Mathlib

/-!
# Verification of the stitch federated query planner / result composer

Shallow embedding of the core data structures and algorithms of the
`stitch` repository (a federated GraphQL query planner and result
stitcher), together with proofs settling the specification claims.

Modelling conventions:
* JavaScript runtime values are modelled by `JValue`.  A JS object and a
  JS array are both "object-like"; both are modelled by the `objV`
  constructor, whose boolean flag is `Array.isArray` and whose entries
  are the insertion-ordered `(key, value)` pairs of `Object.entries`
  (for an array the keys are the index strings "0", "1", ...).
* `undefined` results of property lookups are modelled by `Option`.
* Subschemas are identified by natural numbers; JS `Set` / `Map`
  iteration order (insertion order) is modelled by lists / association
  lists.
-/

inductive JValue where
  | nullV : JValue
  | boolV : Bool → JValue
  | intV : Int → JValue
  | strV : String → JValue
  | objV : Bool → List (String × JValue) → JValue

namespace JValue

/-- Association-list lookup, modelling a JS property read `fields[key]`
(`none` models `undefined`). -/
def lookupKey : List (String × JValue) → String → Option JValue
  | [], _ => none
  | (k, v) :: rest, key => if k = key then some v else lookupKey rest key

/-- Property write `fields[key] = value`: if the key is present its value
is replaced in place (JS objects keep the original insertion position);
otherwise the new entry is appended. -/
def setKey : List (String × JValue) → String → JValue → List (String × JValue)
  | [], key, value => [(key, value)]
  | (k, v) :: rest, key, value =>
      if k = key then (k, value) :: rest else (k, v) :: setKey rest key value

/-- `isObjectLike` from `src/predicates/isObjectLike.ts` applied to a
property read: `typeof value === 'object' && value !== null`; an absent
property (`undefined`) is not object-like. -/
def isObjectLikeOpt : Option JValue → Bool
  | some (objV _ _) => true
  | _ => false

/-- `Array.isArray`. -/
def isArrayV : JValue → Bool
  | objV a _ => a
  | _ => false

end JValue

open JValue

mutual
/-- `Executor._deepMerge(fields, key, value)` from
`src/src/stitch/Executor.ts` (lines 318-332), as a pure function on the
entry list: if either `fields[key]` or `value` is not object-like, or
`value` is an array, overwrite; otherwise merge `value`'s entries
recursively into the existing object. -/
def deepMergeEntry (fields : List (String × JValue)) (key : String)
    (value : JValue) : List (String × JValue) :=
  match lookupKey fields key, value with
  | some (.objV a fs), .objV false ventries =>
      setKey fields key (.objV a (deepMergeList fs ventries))
  | _, _ => setKey fields key value

/-- The merge loop `for (const [key, value] of Object.entries(result.data))
{ this._deepMerge(fields, key, value); }` from
`Executor._handleInitialResult` (lines 247-249). -/
def deepMergeList (fields : List (String × JValue))
    (entries : List (String × JValue)) : List (String × JValue) :=
  match entries with
  | [] => fields
  | (k, v) :: rest => deepMergeList (deepMergeEntry fields k v) rest
end

/-- The merge loop of `Composer._handleResult` from `src/unnamed/part_001`
(lines 146-148): `for (const [key, value] of Object.entries(result.data))
{ fields[key] = value; }` — plain assignment per key, no recursion. -/
def composerMergeList (fields : List (String × JValue))
    (entries : List (String × JValue)) : List (String × JValue) :=
  match entries with
  | [] => fields
  | (k, v) :: rest => composerMergeList (setKey fields k v) rest

example :
    deepMergeList [("user", .objV false [("name", .strV "x")])]
      [("user", .objV false [("email", .strV "y")])] =
      [("user", .objV false [("name", .strV "x"), ("email", .strV "y")])] := by
  simp [deepMergeList, deepMergeEntry, lookupKey, setKey]

example :
    composerMergeList [("user", .objV false [("name", .strV "x")])]
      [("user", .objV false [("email", .strV "y")])] =
      [("user", .objV false [("email", .strV "y")])] := by
  simp [composerMergeList, setKey]

/-! ## Composer state (`src/unnamed/part_001`)

The Composer owns `fields` (the growing result tree), `errors`, and the
`nulled` flag.  Errors are modelled by their messages. -/

/-- A subschema `ExecutionResult` as consumed by `Composer._handleResult`:
`data` is `none` when `result.data` is `null` or `undefined` (the source
tests `result.data == null`); `errors` is `none` when the `errors`
property is absent (the source tests `result.errors != null`). -/
structure ResultModel where
  data : Option (List (String × JValue))
  errors : Option (List String)

/-- The mutable Composer state relevant to result handling:
`this.fields`, `this.errors`, `this.nulled`. -/
structure ComposerState where
  fields : List (String × JValue)
  errors : List String
  nulled : Bool

/-- The state `new Composer(...)` starts from: empty fields, no errors,
not nulled. -/
def composerInitState : ComposerState := ⟨[], [], false⟩

/-- State effect of `Composer._handleResult(undefined, this.fields, stitch,
result, [])` from `src/unnamed/part_001` (lines 119-172), i.e. a result
handled at the empty path (`parent` is `undefined`, `parentKey` is
`undefined`).  Stages, in source order:
1. append `result.errors` when present;
2. null-propagation gate: with `parent` undefined, discard if `this.nulled`;
3. if `result.data == null`, set `this.nulled` (the path is empty) and
   discard;
4. otherwise assign each entry of `result.data` into `fields`.
The final stage (lines 149-172) only collects and dispatches follow-up
fetches (embedded separately as `collectSubFetches`); it does not modify
`fields`, `errors` or `nulled` synchronously, so it has no state effect
here. -/
def handleResultRoot (s : ComposerState) (result : ResultModel) :
    ComposerState :=
  let s1 : ComposerState :=
    match result.errors with
    | some errs => { s with errors := s.errors ++ errs }
    | none => s
  if s1.nulled then s1
  else
    match result.data with
    | none => { s1 with nulled := true }
    | some data => { s1 with fields := composerMergeList s1.fields data }

/-- `Composer.compose()` (lines 62-70) handles every stitch's initial
result; for results handled at the root, the state evolves by folding
`_handleResult` over the results. -/
def handleResultsRoot (results : List ResultModel) : ComposerState :=
  results.foldl handleResultRoot composerInitState

/-- The response shape `{ data, errors? }` built by
`Composer._buildResponse`. -/
structure ResponseModel where
  data : Option (List (String × JValue))
  errors : Option (List String)

/-- `Composer._buildResponse()` (lines 86-91): `data` is `null` when
`this.nulled`, else the fields; `errors` is attached only when
non-empty. -/
def buildResponse (s : ComposerState) : ResponseModel :=
  let fieldsOrNull := if s.nulled then none else some s.fields
  if s.errors.length > 0 then ⟨fieldsOrNull, some s.errors⟩
  else ⟨fieldsOrNull, none⟩

/-! ## `buildExecutionContext` (`src/unnamed/part_003`)

Only the operation-selection logic matters for the claims; a document
definition is modelled by its kind and name. -/

inductive DefinitionModel where
  | operationDef (name : Option String)
  | fragmentDef (name : String)
  | otherDef
  deriving DecidableEq

/-- The operation-selection loop of `buildExecutionContext`
(`src/unnamed/part_003`, lines 41-63): walk the definitions keeping the
currently selected operation (`none` initially); with no
`operationName`, a second operation definition is an immediate error;
with an `operationName`, a definition is selected iff its name matches. -/
def selectOperationLoop (operationName : Option String)
    (operation : Option (Option String)) :
    List DefinitionModel → Except (List String) (Option (Option String))
  | [] => .ok operation
  | .operationDef n :: rest =>
      match operationName with
      | none =>
          match operation with
          | some _ =>
              .error
                ["Must provide operation name if query contains multiple operations."]
          | none => selectOperationLoop operationName (some n) rest
      | some opName =>
          if n = some opName then selectOperationLoop operationName (some n) rest
          else selectOperationLoop operationName operation rest
  | _ :: rest => selectOperationLoop operationName operation rest

/-- Operation selection of `buildExecutionContext` (lines 39-70): run the
loop, then if no operation was selected return the `Unknown operation
named "X".` error (when an `operationName` was supplied) or the
`Must provide an operation.` error (when none was). -/
def selectOperation (defs : List DefinitionModel)
    (operationName : Option String) : Except (List String) (Option String) :=
  match selectOperationLoop operationName none defs with
  | .error e => .error e
  | .ok none =>
      match operationName with
      | some x => .error [s!"Unknown operation named \x22{x}\x22."]
      | none => .error ["Must provide an operation."]
  | .ok (some n) => .ok n

/-- Number of operation definitions in a document. -/
def countOperations (defs : List DefinitionModel) : Nat :=
  defs.countP fun d => match d with | .operationDef _ => true | _ => false

/-- Whether some operation definition carries the given name. -/
def hasOperationNamed (defs : List DefinitionModel) (x : String) : Bool :=
  defs.any fun d => match d with
    | .operationDef n => n = some x
    | _ => false

/-! ## Outgoing documents (C5)

A parsed document is a list of definitions; an operation definition
carries the operation kind, optional name, optional variable-definition
list (absent properties are `none`) and a selection set.  Selections are
kept abstract (a type parameter). -/

inductive DocDefinition (Sel : Type) where
  | operationDef (operation : String) (name : Option String)
      (variableDefinitions : Option (List String)) (selections : List Sel)
  | fragmentDef (name : String) (selections : List Sel)
  deriving DecidableEq

structure DocumentModel (Sel : Type) where
  definitions : List (DocDefinition Sel)
  deriving DecidableEq

/-- The original operation header: kind, name, variable definitions. -/
structure OperationHeader where
  operation : String
  name : Option String
  variableDefinitions : Option (List String)
  deriving DecidableEq

/-- `Composer._createDocument(selections)` from `src/unnamed/part_001`
(lines 71-85): the produced document has a single definition, an
operation definition with `operation: OperationTypeNode.QUERY` and the
given selection set; the object literal carries no `name`, no
`variableDefinitions` and the document carries no fragment
definitions. -/
def Composer_createDocument {Sel : Type} (selections : List Sel) :
    DocumentModel Sel :=
  ⟨[.operationDef "query" none none selections]⟩

/-- `Executor._createDocument(selections)` from
`src/src/stitch/Executor.ts` (lines 101-115): `{ ...this.operation,
selectionSet }` followed by `...this.fragments` — the original operation
header is preserved and all fragment definitions are appended. -/
def Executor_createDocument {Sel : Type} (operation : OperationHeader)
    (fragments : List (String × List Sel)) (selections : List Sel) :
    DocumentModel Sel :=
  ⟨.operationDef operation.operation operation.name
      operation.variableDefinitions selections ::
    fragments.map fun f => .fragmentDef f.1 f.2⟩

/-- Modelled from the spec: the outgoing-document shape the specification
describes ("the original operation header (kind, name, variable
definitions) verbatim, a selection set equal to the plan's field nodes
for that subschema, and all fragment definitions from the original
document appended"). -/
def specOutgoingDocument {Sel : Type} (operation : OperationHeader)
    (fragments : List (String × List Sel)) (selections : List Sel) :
    DocumentModel Sel :=
  ⟨.operationDef operation.operation operation.name
      operation.variableDefinitions selections ::
    fragments.map fun f => .fragmentDef f.1 f.2⟩

/-! ## Planner (`src/src/stitch/Planner.ts`)

Selections are modelled by the field-node-level AST the planner
consumes: field nodes (optional alias, name, optional nested selection
set) and inline fragments (optional type condition, selections).
Fragment spreads have been inlined upstream (the source throws on one),
so they do not appear in the model.  A GraphQL type is identified by its
name; the source invariant `isCompositeType(refinedType)` on inline
fragment conditions (it throws otherwise) is assumed to hold, so a type
condition is modelled directly by the condition's type name. -/

inductive SelectionModel where
  | field (al : Option String) (name : String)
      (selectionSet : Option (List SelectionModel))
  | inlineFragment (typeCondition : Option String)
      (selections : List SelectionModel)

/-- The static schema information the planner consults on the
`SuperSchema`:
* `subschemaSets t f` — `subschemaSetsByTypeAndField[t][f]`, the
  insertion-ordered set of subschemas able to resolve field `f` on type
  `t` (`none` when absent);
* `fieldTypeName t f` — the name of `getNamedType(fieldDef.type)` for
  `getFieldDef(t, f)` (`none` when the field definition is absent);
* `isAbstract`, `getPossibleTypes`, `isSubTypeOf` — the merged schema's
  abstract-type queries;
* `isObjectTypeName n` — whether `getType(n)` is an object type. -/
structure SchemaModel where
  subschemaSets : String → String → Option (List Nat)
  fieldTypeName : String → String → Option String
  isAbstract : String → Bool
  getPossibleTypes : String → List String
  isSubTypeOf : String → String → Bool
  isObjectTypeName : String → Bool

/-- The synthetic field node injected by `Planner._createSelectionSplit`
(lines 433-446): `__typename` aliased as `__stitching__typename`. -/
def stitchingTypenameField : SelectionModel :=
  .field (some "__stitching__typename") "__typename" none

structure SelectionSplit where
  ownSelections : List SelectionModel
  otherSelections : List SelectionModel

mutual
/-- `Planner._createSelectionSplit(parentType, selections, subschema,
fromSubschema)` (Planner.ts lines 410-449): process the selections into
`ownSelections` / `otherSelections`; then, when `fromSubschema` is
`undefined` and `otherSelections` ended non-empty, append (via
`appendToArray`) the `__stitching__typename` field to
`ownSelections`. -/
def createSelectionSplit (schema : SchemaModel) (parentType : String)
    (selections : List SelectionModel) (subschema : Nat)
    (fromSubschema : Option Nat) : SelectionSplit :=
  let split :=
    processSelectionsForSelectionSplit schema ⟨[], []⟩ subschema
      fromSubschema parentType selections
  if fromSubschema = none ∧ split.otherSelections.length > 0 then
    { split with
        ownSelections := split.ownSelections ++ [stitchingTypenameField] }
  else split
termination_by (sizeOf selections, 3)

/-- `Planner._processSelectionsForSelectionSplit` (lines 451-496): handle
each selection in order — a field through `_addFieldToSelectionSplit`,
an inline fragment through `_addFragmentToSelectionSplit` with the
parent type refined by the type condition. -/
def processSelectionsForSelectionSplit (schema : SchemaModel)
    (split : SelectionSplit) (subschema : Nat) (fromSubschema : Option Nat)
    (parentType : String) (selections : List SelectionModel) :
    SelectionSplit :=
  match selections with
  | [] => split
  | .field al name subsel :: rest =>
      processSelectionsForSelectionSplit schema
        (addFieldToSelectionSplit schema split subschema fromSubschema
          parentType al name subsel)
        subschema fromSubschema parentType rest
  | .inlineFragment cond sels :: rest =>
      processSelectionsForSelectionSplit schema
        (addFragmentToSelectionSplit schema split subschema fromSubschema
          (cond.getD parentType) cond sels)
        subschema fromSubschema parentType rest
termination_by (sizeOf selections, 0)

/-- `Planner._addFieldToSelectionSplit` (lines 498-570): a field with no
candidate set is ignored; a leaf field goes to `ownSelections` when the
target subschema is in its candidate set, else to `otherSelections`; a
field with a nested selection set whose field definition is absent is
ignored, otherwise the nested selections are split recursively against
the field's named return type and each non-empty half is appended as a
clone of the field carrying that half. -/
def addFieldToSelectionSplit (schema : SchemaModel) (split : SelectionSplit)
    (subschema : Nat) (fromSubschema : Option Nat) (parentType : String)
    (al : Option String) (name : String)
    (subsel : Option (List SelectionModel)) : SelectionSplit :=
  match schema.subschemaSets parentType name with
  | none => split
  | some subschemaSet =>
    match subsel with
    | none =>
        if subschemaSet.contains subschema then
          { split with
              ownSelections := split.ownSelections ++ [.field al name none] }
        else
          { split with
              otherSelections :=
                split.otherSelections ++ [.field al name none] }
    | some sels =>
        match schema.fieldTypeName parentType name with
        | none => split
        | some namedType =>
            let sub :=
              createSelectionSplit schema namedType sels subschema
                fromSubschema
            let split2 :=
              if sub.ownSelections.length ≠ 0 then
                { split with
                    ownSelections :=
                      split.ownSelections ++
                        [.field al name (some sub.ownSelections)] }
              else split
            if sub.otherSelections.length ≠ 0 then
              { split2 with
                  otherSelections :=
                    split2.otherSelections ++
                      [.field al name (some sub.otherSelections)] }
            else split2
termination_by (sizeOf subsel, 4)

/-- `Planner._addFragmentToSelectionSplit` (lines 572-619): process the
fragment's selections into a fresh split against the refined parent
type, then wrap each non-empty half back in a clone of the inline
fragment (same type condition) and append it to the corresponding
side. -/
def addFragmentToSelectionSplit (schema : SchemaModel)
    (split : SelectionSplit) (subschema : Nat) (fromSubschema : Option Nat)
    (refinedType : String) (cond : Option String)
    (sels : List SelectionModel) : SelectionSplit :=
  let fsplit :=
    processSelectionsForSelectionSplit schema ⟨[], []⟩ subschema
      fromSubschema refinedType sels
  let split1 :=
    if fsplit.ownSelections.length > 0 then
      { split with
          ownSelections :=
            split.ownSelections ++ [.inlineFragment cond fsplit.ownSelections] }
    else split
  if fsplit.otherSelections.length > 0 then
    { split1 with
        otherSelections :=
          split1.otherSelections ++
            [.inlineFragment cond fsplit.otherSelections] }
  else split1
termination_by (sizeOf sels, 1)
end

/-! ## Subschema choice for leaf fields (Planner.ts lines 223-374) -/

/-- A `SubschemaPlan` as built by the Planner: target subschema, optional
originating subschema, and the accumulated field nodes.  (The nested
`stitchPlans` map, irrelevant to field placement, is not carried.) -/
structure SubschemaPlanModel where
  toSubschema : Nat
  fromSubschema : Option Nat
  fieldNodes : List SelectionModel

/-- `subschemaPlans.get(subschema)` on the insertion-ordered
`Map<Subschema, SubschemaPlan>`. -/
def lookupPlan : List (Nat × SubschemaPlanModel) → Nat →
    Option SubschemaPlanModel
  | [], _ => none
  | (k, p) :: rest, s => if k = s then some p else lookupPlan rest s

/-- `subschemaPlans.set(subschema, plan)`: replace in place when present,
else append. -/
def setPlan : List (Nat × SubschemaPlanModel) → Nat → SubschemaPlanModel →
    List (Nat × SubschemaPlanModel)
  | [], s, p => [(s, p)]
  | (k, q) :: rest, s, p =>
      if k = s then (k, p) :: rest else (k, q) :: setPlan rest s p

/-- The search loop shared by `Planner._getSubschemaAndPlan` (lines
322-327) and `Planner._getSubschema` (lines 346-351): iterate the
candidate set in insertion order and return the first candidate that
already has a `SubschemaPlan` entry, with its plan. -/
def getSubschemaAndPlanLoop (subschemaPlans : List (Nat × SubschemaPlanModel)) :
    List Nat → Option (Nat × SubschemaPlanModel)
  | [] => none
  | s :: rest =>
      match lookupPlan subschemaPlans s with
      | some p => some (s, p)
      | none => getSubschemaAndPlanLoop subschemaPlans rest

/-- `Planner._getSubschemaAndPlan(subschemas, subschemaPlans,
fromSubschema)` (lines 317-340): return the first candidate that already
has a plan together with that plan; otherwise take the first candidate
of the set, create a fresh `SubschemaPlan` for it (with `fromSubschema`
recorded as its originating subschema and empty field nodes) and insert
it into the map.  Returns the chosen subschema, its plan, and the
updated map; `none` models the empty candidate set (where the source
would read an `undefined` subschema out of the set). -/
def getSubschemaAndPlan (subschemas : List Nat)
    (subschemaPlans : List (Nat × SubschemaPlanModel))
    (fromSubschema : Option Nat) :
    Option (Nat × SubschemaPlanModel × List (Nat × SubschemaPlanModel)) :=
  match getSubschemaAndPlanLoop subschemaPlans subschemas with
  | some (s, p) => some (s, p, subschemaPlans)
  | none =>
      match subschemas with
      | [] => none
      | s :: _ =>
          let p : SubschemaPlanModel := ⟨s, fromSubschema, []⟩
          some (s, p, subschemaPlans ++ [(s, p)])

/-- `Planner._getSubschema(subschemas, subschemaPlans)` (lines 342-354):
the first candidate that already has a plan, else the first candidate of
the set. -/
def getSubschema (subschemas : List Nat)
    (subschemaPlans : List (Nat × SubschemaPlanModel)) : Option Nat :=
  match getSubschemaAndPlanLoop subschemaPlans subschemas with
  | some (s, _) => some s
  | none => subschemas.head?

/-- The leaf-field branch of `Planner._addFieldToFieldPlan` (lines
229-248): look up the candidate set (`undefined` → the field is
ignored); for a field with no nested selection set, obtain a subschema
and plan from `_getSubschemaAndPlan` and append the field to that plan's
`fieldNodes`. -/
def addLeafFieldToFieldPlan (schema : SchemaModel)
    (subschemaPlans : List (Nat × SubschemaPlanModel))
    (fromSubschema : Option Nat) (parentType : String) (al : Option String)
    (name : String) : List (Nat × SubschemaPlanModel) :=
  match schema.subschemaSets parentType name with
  | none => subschemaPlans
  | some subschemas =>
      match getSubschemaAndPlan subschemas subschemaPlans fromSubschema with
      | none => subschemaPlans
      | some (s, p, plans1) =>
          setPlan plans1 s
            { p with fieldNodes := p.fieldNodes ++ [.field al name none] }

/-- Modelled from the spec: the leaf-field subschema choice rule the
claim states — "prefer `fromSubschema` if it is among the candidates,
else prefer a subschema that already has an entry in `plan`, else take
the first candidate". -/
def specLeafChoiceRule (fromSubschema : Option Nat) (subschemas : List Nat)
    (subschemaPlans : List (Nat × SubschemaPlanModel)) : Option Nat :=
  match fromSubschema with
  | some f =>
      if subschemas.contains f then some f
      else
        match getSubschemaAndPlanLoop subschemaPlans subschemas with
        | some (s, _) => some s
        | none => subschemas.head?
  | none =>
      match getSubschemaAndPlanLoop subschemaPlans subschemas with
      | some (s, _) => some s
      | none => subschemas.head?

/-- The amended leaf-field choice rule: the first candidate (in
candidate-set insertion order) that already has a `SubschemaPlan` entry,
else the first candidate; `fromSubschema` is not consulted. -/
def amendedLeafChoiceRule (subschemas : List Nat)
    (subschemaPlans : List (Nat × SubschemaPlanModel)) : Option Nat :=
  match subschemas.find? (fun s => (lookupPlan subschemaPlans s).isSome) with
  | some s => some s
  | none => subschemas.head?

/-! ## Stitch plans (`Planner._createStitchPlan`, lines 376-408) -/

/-- `Planner._doesFragmentConditionMatch(schema, fragment, type)` (lines
156-173): no type condition always matches; a condition naming the
runtime type itself matches; an abstract condition matches via
`schema.isSubType`; any other concrete condition does not match. -/
def doesFragmentConditionMatch (schema : SchemaModel) (cond : Option String)
    (runtimeType : String) : Bool :=
  match cond with
  | none => true
  | some c =>
      if c = runtimeType then true
      else schema.isAbstract c && schema.isSubTypeOf c runtimeType

/-- `Planner._collectSubFieldsImpl(runtimeType, selections, fieldNodes)`
(lines 113-151): append each field node; flatten an inline fragment into
the accumulator when its type condition matches the runtime type.
(Fragment spreads, on which the source throws, do not occur in the
model.) -/
def collectSubFields (schema : SchemaModel) (runtimeType : String)
    (selections : List SelectionModel) (fieldNodes : List SelectionModel) :
    List SelectionModel :=
  match selections with
  | [] => fieldNodes
  | .field al name subsel :: rest =>
      collectSubFields schema runtimeType rest
        (fieldNodes ++ [.field al name subsel])
  | .inlineFragment cond sels :: rest =>
      if doesFragmentConditionMatch schema cond runtimeType then
        collectSubFields schema runtimeType rest
          (collectSubFields schema runtimeType sels fieldNodes)
      else collectSubFields schema runtimeType rest fieldNodes
termination_by sizeOf selections

/-- A `FieldPlan` as inspected by `_createStitchPlan`'s emptiness test:
its `subschemaPlans` array and its `stitchPlans` map (whose payloads are
kept abstract in the type parameter). -/
structure FieldPlanModel (StitchSub : Type) where
  subschemaPlans : List SubschemaPlanModel
  stitchPlans : List (String × StitchSub)

/-- `Map.set` on an association list keyed by type name. -/
def mapSet {β : Type} : List (String × β) → String → β → List (String × β)
  | [], k, v => [(k, v)]
  | (k1, v1) :: rest, k, v =>
      if k1 = k then (k1, v) :: rest else (k1, v1) :: mapSet rest k v

/-- The possible-runtime-types computation of `Planner._createStitchPlan`
(lines 383-388): `getPossibleTypes(parentType)` when the type is
abstract, else the singleton `[parentType]`. -/
def possibleTypesFor (schema : SchemaModel) (parentType : String) :
    List String :=
  if schema.isAbstract parentType then schema.getPossibleTypes parentType
  else [parentType]

/-- `Planner._createStitchPlan(parentType, otherSelections, subschema)`
(lines 376-408), parameterised by the (memoised, pure)
`_createSupplementalFieldPlan` collaborator: for each possible runtime
type, collect the sub-fields of `otherSelections`, build the
supplemental field plan, and enter it into the stitch plan only when it
has at least one subschema plan or at least one stitch plan. -/
def createStitchPlan {StitchSub : Type} (schema : SchemaModel)
    (parentType : String) (otherSelections : List SelectionModel)
    (subschema : Nat)
    (createSupplementalFieldPlan :
      String → List SelectionModel → Nat → FieldPlanModel StitchSub) :
    List (String × FieldPlanModel StitchSub) :=
  (possibleTypesFor schema parentType).foldl
    (fun stitchPlan t =>
      let fieldNodes := collectSubFields schema t otherSelections []
      let fieldPlan := createSupplementalFieldPlan t fieldNodes subschema
      if fieldPlan.subschemaPlans.length > 0 ∨
          fieldPlan.stitchPlans.length > 0 then
        mapSet stitchPlan t fieldPlan
      else stitchPlan)
    []

/-! ## Composer follow-up collection (`src/unnamed/part_001`, lines 174-243)

The stitch-plan tree the Composer walks: a `StitchTree` maps concrete
object type names to `FieldPlan`s; a `FieldPlan` holds subschema plans
(keyed by target subschema) and nested stitch trees; a `SubschemaPlan`
holds its field nodes (modelled opaquely by identifiers) and optional
nested stitch trees.  A GraphQL type is identified by its name. -/

mutual
inductive StitchTreeM where
  | mk (fieldPlans : List (String × FieldPlanC)) : StitchTreeM

inductive FieldPlanC where
  | mk (subschemaPlans : List (Nat × SubschemaPlanC))
      (stitchTrees : List (String × StitchTreeM)) : FieldPlanC

inductive SubschemaPlanC where
  | mk (fieldNodes : List Nat)
      (stitchTrees : Option (List (String × StitchTreeM))) : SubschemaPlanC
end

def StitchTreeM.fieldPlans : StitchTreeM → List (String × FieldPlanC)
  | ⟨f⟩ => f

def FieldPlanC.subschemaPlans : FieldPlanC → List (Nat × SubschemaPlanC)
  | ⟨s, _⟩ => s

def FieldPlanC.stitchTrees : FieldPlanC → List (String × StitchTreeM)
  | ⟨_, t⟩ => t

def SubschemaPlanC.fieldNodes : SubschemaPlanC → List Nat
  | ⟨f, _⟩ => f

def SubschemaPlanC.stitchTrees :
    SubschemaPlanC → Option (List (String × StitchTreeM))
  | ⟨_, t⟩ => t

/-- Generic association-list lookup (JS `Map.get` keyed by name). -/
def assocLookup {β : Type} : List (String × β) → String → Option β
  | [], _ => none
  | (k, v) :: rest, key => if k = key then some v else assocLookup rest key

inductive PathKey where
  | str (s : String)
  | idx (n : Nat)
  deriving DecidableEq

/-- The entries a `FetchPlan` carries (part_001 lines 23-29): the
subschema plan's field nodes and nested stitch trees, the `parent`
reference (for null propagation), the `target` object the merged data
will be written into, and the path. -/
structure FetchPlanM where
  fieldNodes : List Nat
  stitchTrees : Option (List (String × StitchTreeM))
  parent : JValue
  target : JValue
  path : List PathKey

/-- The three invariant failures `Composer._collectSubFetches` can raise
(part_001 lines 211-227), in source order:
`Missing entry '__stitching__typename' in response ...`,
`Expected Object type, received '...'.`,
`Missing field plan for type '...'.`. -/
inductive InvariantError where
  | missingTypename
  | notObjectType (typeName : String)
  | missingFieldPlan (typeName : String)
  deriving DecidableEq

/-- JS property-key coercion `String(value)` applied when a non-string
`__stitching__typename` value is used to index `this.mergedTypes`
(primitive coercions are exact; an object-valued marker is modelled by
the default object coercion). -/
def markerTypeName : JValue → String
  | .strV s => s
  | .intV n => toString n
  | .boolV b => toString b
  | .nullV => "null"
  | .objV _ _ => "[object Object]"

theorem JValue.sizeOf_lookupKey {k : String} {v : JValue} :
    ∀ {xs : List (String × JValue)},
      lookupKey xs k = some v → sizeOf v < sizeOf xs
  | [], h => by simp [lookupKey] at h
  | (k1, v1) :: rest, h => by
      by_cases hk : k1 = k
      · simp [lookupKey, hk] at h
        subst h
        simp
        omega
      · simp [lookupKey, hk] at h
        have := JValue.sizeOf_lookupKey h
        simp
        omega

mutual
/-- `Composer._collectSubFetches(subFetchMap, parent, fieldsOrList,
stitchTree, path)` (part_001 lines 192-243), with the accumulator map
flattened to the list of `add` calls in order: an array recurses
elementwise with numeric path components; an object reads
`__stitching__typename` (missing or `null` → invariant failure),
resolves it to a type of the super-schema (not an object type →
invariant failure), looks up the per-type `FieldPlan` in the stitch tree
(missing → invariant failure), enqueues one `FetchPlan` per subschema
plan, and walks the field plan's nested stitch trees at the same node.
A primitive in stitched position has no `__stitching__typename`
property, hence the same missing-entry failure (for a JS `null` the
property read itself would throw). -/
def collectSubFetches (schema : SchemaModel) (acc : List (Nat × FetchPlanM))
    (parent : JValue) (fieldsOrList : JValue) (stitchTree : StitchTreeM)
    (path : List PathKey) : Except InvariantError (List (Nat × FetchPlanM)) :=
  match fieldsOrList with
  | .objV true xs =>
      collectSubFetchesArr schema acc (.objV true xs) xs 0 stitchTree path
  | .objV false xs =>
      match lookupKey xs "__stitching__typename" with
      | none => .error .missingTypename
      | some .nullV => .error .missingTypename
      | some v =>
          let typeName := markerTypeName v
          if schema.isObjectTypeName typeName then
            match assocLookup stitchTree.fieldPlans typeName with
            | none => .error (.missingFieldPlan typeName)
            | some fieldPlan =>
                let acc1 := acc ++ fieldPlan.subschemaPlans.map fun sp =>
                  (sp.1,
                    ⟨sp.2.fieldNodes, sp.2.stitchTrees, parent,
                      .objV false xs, path⟩)
                walkStitchTrees schema acc1 xs fieldPlan.stitchTrees path
          else .error (.notObjectType typeName)
  | _ => .error .missingTypename
termination_by (sizeOf fieldsOrList, sizeOf stitchTree)
decreasing_by
  all_goals first
    | exact Prod.Lex.left _ _ (JValue.sizeOf_lookupKey hv)
    | (apply Prod.Lex.right; simp; omega)
    | (apply Prod.Lex.left; simp; omega)
    | (apply Prod.Lex.right; simp)
    | (apply Prod.Lex.left; simp)

/-- The elementwise loop of `_collectSubFetches` for arrays (lines
199-210): each element (an entry value of the array object) is collected
with the array as parent and its index appended to the path. -/
def collectSubFetchesArr (schema : SchemaModel)
    (acc : List (Nat × FetchPlanM)) (parentArr : JValue)
    (elems : List (String × JValue)) (i : Nat) (stitchTree : StitchTreeM)
    (path : List PathKey) : Except InvariantError (List (Nat × FetchPlanM)) :=
  match elems with
  | [] => .ok acc
  | (_, v) :: rest =>
      match collectSubFetches schema acc parentArr v stitchTree
          (path ++ [.idx i]) with
      | .error e => .error e
      | .ok acc1 =>
          collectSubFetchesArr schema acc1 parentArr rest (i + 1) stitchTree
            path
termination_by (sizeOf elems, sizeOf stitchTree)
decreasing_by
  all_goals first
    | exact Prod.Lex.left _ _ (JValue.sizeOf_lookupKey hv)
    | (apply Prod.Lex.right; simp; omega)
    | (apply Prod.Lex.left; simp; omega)
    | (apply Prod.Lex.right; simp)
    | (apply Prod.Lex.left; simp)

/-- `Composer._walkStitchTrees(subFetchMap, fields, stitchTrees, path)`
(part_001 lines 174-191): for each stitch-tree entry whose key is
present (not `undefined`) in `fields`, collect sub-fetches on that value
with `fields` as parent and the key appended to the path. -/
def walkStitchTrees (schema : SchemaModel) (acc : List (Nat × FetchPlanM))
    (fields : List (String × JValue))
    (stitchTrees : List (String × StitchTreeM)) (path : List PathKey) :
    Except InvariantError (List (Nat × FetchPlanM)) :=
  match stitchTrees with
  | [] => .ok acc
  | (key, tree) :: rest =>
      match hv : lookupKey fields key with
      | none => walkStitchTrees schema acc fields rest path
      | some v =>
          match collectSubFetches schema acc (.objV false fields) v tree
              (path ++ [.str key]) with
          | .error e => .error e
          | .ok acc1 => walkStitchTrees schema acc1 fields rest path
termination_by (sizeOf fields, sizeOf stitchTrees)
decreasing_by
  all_goals first
    | exact Prod.Lex.left _ _ (JValue.sizeOf_lookupKey hv)
    | (apply Prod.Lex.right; simp; omega)
    | (apply Prod.Lex.left; simp; omega)
    | (apply Prod.Lex.right; simp)
    | (apply Prod.Lex.left; simp)
end

/-! ## Stream Consolidator (`src/unnamed/part_004`)

The synchronous state of a `Consolidator`: the `_closed` flag and the
insertion-ordered set `_asyncIterators` of held source iterators
(opaque, of type `ι`).  `close()` and `add()` (lines 55-69) are the only
mutators of this state; the async driver loop (lines 19-35, 70-105)
pulls every held iterator to exhaustion, pushes the values the
per-item `processor` does not filter out, and stops once `_closed` holds
and all held iterators are exhausted — abstracted below by `drain`,
which lists the emitted values source by source (fair cross-source
interleaving is not modelled; the claims do not depend on it). -/

structure ConsolidatorState (ι : Type) where
  closed : Bool
  asyncIterators : List ι

inductive ConsOp (ι : Type) where
  | add (it : ι)
  | close

/-- `Consolidator.close()` (lines 55-60) sets `_closed` (the `_trigger`
call only wakes the driver loop); `Consolidator.add(value)` (lines
61-69) returns immediately when `_closed` is set, else inserts the
value's iterator into the `_asyncIterators` set (a JS `Set`: appended
unless already present). -/
def consolidatorApply {ι : Type} [DecidableEq ι] (s : ConsolidatorState ι) :
    ConsOp ι → ConsolidatorState ι
  | .close => { s with closed := true }
  | .add it =>
      if s.closed then s
      else if s.asyncIterators.contains it then s
      else { s with asyncIterators := s.asyncIterators ++ [it] }

def consolidatorRun {ι : Type} [DecidableEq ι] (s : ConsolidatorState ι)
    (ops : List (ConsOp ι)) : ConsolidatorState ι :=
  ops.foldl consolidatorApply s

/-- The constructor (lines 6-49): starts not closed, holding the
iterators of the initial sequences (inserted in order, as a set). -/
def consolidatorInit {ι : Type} [DecidableEq ι] (inits : List ι) :
    ConsolidatorState ι :=
  ⟨false,
    inits.foldl (fun l it => if l.contains it then l else l ++ [it]) []⟩

/-- The values the driver loop emits before terminating: every value of
every held iterator, transformed/filtered by the `processor`
(`_addAsyncIterator`, lines 70-105: items with `processor` result
`undefined` are skipped). -/
def drain {ι α : Type} (s : ConsolidatorState ι) (valuesOf : ι → List α)
    (processor : α → Option α) : List α :=
  ((s.asyncIterators.map valuesOf).flatten).filterMap processor

/-! ## Basic lemmas about entry lists -/

/-- The key list of an entry list. -/
def keysOf (xs : List (String × JValue)) : List String := xs.map Prod.fst

/-- Key sets disjoint.  (For maps with disjoint top-level keys no nested
path is shared either, so this coincides with the claim's "pairwise
disjoint at every level of nesting".) -/
def disjointKeys (xs ys : List (String × JValue)) : Prop :=
  ∀ k, k ∈ keysOf xs → k ∉ keysOf ys

theorem keysOf_append (xs ys : List (String × JValue)) :
    keysOf (xs ++ ys) = keysOf xs ++ keysOf ys := by
  simp [keysOf]

theorem keysOf_cons (k : String) (v : JValue) (tl : List (String × JValue)) :
    keysOf ((k, v) :: tl) = k :: keysOf tl := rfl

theorem lookupKey_eq_none_iff {xs : List (String × JValue)} {k : String} :
    lookupKey xs k = none ↔ k ∉ keysOf xs := by
  induction xs with
  | nil => simp [lookupKey, keysOf]
  | cons hd tl ih =>
      obtain ⟨k1, v1⟩ := hd
      by_cases hk : k1 = k
      · subst hk
        simp [lookupKey, keysOf]
      · simp [lookupKey, keysOf, hk, ih, Ne.symm hk]

theorem setKey_of_not_mem {xs : List (String × JValue)} {k : String}
    {v : JValue} (h : k ∉ keysOf xs) : setKey xs k v = xs ++ [(k, v)] := by
  induction xs with
  | nil => simp [setKey]
  | cons hd tl ih =>
      obtain ⟨k1, v1⟩ := hd
      have hk : k1 ≠ k := by
        intro hk
        exact h (by rw [keysOf_cons, hk]; exact List.mem_cons_self _ _)
      rw [keysOf_cons] at h
      have htl : k ∉ keysOf tl := fun hm => h (List.mem_cons_of_mem _ hm)
      simp [setKey, hk, ih htl]

theorem deepMergeEntry_of_not_mem {xs : List (String × JValue)} {k : String}
    {v : JValue} (h : k ∉ keysOf xs) :
    deepMergeEntry xs k v = xs ++ [(k, v)] := by
  have hl : lookupKey xs k = none := lookupKey_eq_none_iff.mpr h
  rw [deepMergeEntry.eq_def, hl]
  cases v <;> simp [setKey_of_not_mem h]

theorem deepMergeList_of_disjoint :
    ∀ (b a : List (String × JValue)),
      (∀ k ∈ keysOf b, k ∉ keysOf a) → (keysOf b).Nodup →
      deepMergeList a b = a ++ b
  | [], a, _, _ => by simp [deepMergeList]
  | (k, v) :: rest, a, hdisj, hnd => by
      have hk : k ∉ keysOf a := hdisj k (by simp [keysOf])
      have hkeys : keysOf ((k, v) :: rest) = k :: keysOf rest := by
        simp [keysOf]
      rw [hkeys] at hnd
      have hknotrest : k ∉ keysOf rest := (List.nodup_cons.mp hnd).1
      have hnd2 : (keysOf rest).Nodup := (List.nodup_cons.mp hnd).2
      have hdisj2 : ∀ k2 ∈ keysOf rest, k2 ∉ keysOf (a ++ [(k, v)]) := by
        intro k2 hk2
        have ha : k2 ∉ keysOf a := hdisj k2 (by rw [hkeys]; exact .tail _ hk2)
        have hne : k2 ≠ k := fun he => hknotrest (he ▸ hk2)
        rw [keysOf_append]
        intro hmem
        rcases List.mem_append.mp hmem with hm | hm
        · exact ha hm
        · rw [keysOf_cons] at hm
          rcases List.mem_cons.mp hm with hm | hm
          · exact hne hm
          · simp [keysOf] at hm
      rw [deepMergeList, deepMergeEntry_of_not_mem hk,
        deepMergeList_of_disjoint rest (a ++ [(k, v)]) hdisj2 hnd2]
      simp

/-- C9: Deep merge is associative on maps with disjoint structural keys:
for all object-like maps `a`, `b`, `c` whose key sets are pairwise
disjoint at every level of nesting (with disjoint top-level keys no
nested path is shared, so top-level disjointness is the content of that
hypothesis) and whose own keys are unrepeated (they are maps),
`deep-merge(deep-merge(a, b), c) = deep-merge(a, deep-merge(b, c))`. -/
theorem c9_deep_merge_assoc (a b c : List (String × JValue))
    (hab : disjointKeys a b) (hac : disjointKeys a c)
    (hbc : disjointKeys b c) (hb : (keysOf b).Nodup)
    (hc : (keysOf c).Nodup) :
    deepMergeList (deepMergeList a b) c =
      deepMergeList a (deepMergeList b c) := by
  have h1 : deepMergeList a b = a ++ b :=
    deepMergeList_of_disjoint b a (fun k hkb hka => hab k hka hkb) hb
  have h2 : deepMergeList (a ++ b) c = (a ++ b) ++ c := by
    refine deepMergeList_of_disjoint c (a ++ b) (fun k hkc hk => ?_) hc
    rw [keysOf_append] at hk
    rcases List.mem_append.mp hk with hka | hkb
    · exact hac k hka hkc
    · exact hbc k hkb hkc
  have h3 : deepMergeList b c = b ++ c :=
    deepMergeList_of_disjoint c b (fun k hkc hkb => hbc k hkb hkc) hc
  have h4 : deepMergeList a (b ++ c) = a ++ (b ++ c) := by
    refine deepMergeList_of_disjoint (b ++ c) a (fun k hk hka => ?_) ?_
    · rw [keysOf_append] at hk
      rcases List.mem_append.mp hk with hkb | hkc
      · exact hab k hka hkb
      · exact hac k hka hkc
    · rw [keysOf_append]
      exact hb.append hc fun k hkb hkc => hbc k hkb hkc
  rw [h1, h2, h3, h4, List.append_assoc]

/-- Witness for C9 at concrete disjoint maps. -/
theorem c9_deep_merge_assoc_witness :
    deepMergeList
        (deepMergeList [("x", JValue.intV 1)] [("y", JValue.intV 2)])
        [("z", JValue.intV 3)] =
      deepMergeList [("x", JValue.intV 1)]
        (deepMergeList [("y", JValue.intV 2)] [("z", JValue.intV 3)]) :=
  c9_deep_merge_assoc _ _ _
    (by simp [disjointKeys, keysOf]) (by simp [disjointKeys, keysOf])
    (by simp [disjointKeys, keysOf]) (by simp [keysOf]) (by simp [keysOf])

/-! ## C1: the Composer's merge is plain assignment, not deep merge -/

theorem lookupKey_setKey_self (xs : List (String × JValue)) (k : String)
    (v : JValue) : lookupKey (setKey xs k v) k = some v := by
  induction xs with
  | nil => simp [setKey, lookupKey]
  | cons hd tl ih =>
      obtain ⟨k1, v1⟩ := hd
      by_cases hk : k1 = k
      · simp [setKey, lookupKey, hk]
      · simp [setKey, lookupKey, hk, ih]

theorem lookupKey_setKey_other (xs : List (String × JValue))
    {k k2 : String} (v : JValue) (h : k2 ≠ k) :
    lookupKey (setKey xs k v) k2 = lookupKey xs k2 := by
  induction xs with
  | nil => simp [setKey, lookupKey, Ne.symm h]
  | cons hd tl ih =>
      obtain ⟨k1, v1⟩ := hd
      by_cases hk : k1 = k
      · subst hk
        simp [setKey, lookupKey, Ne.symm h]
      · by_cases hk2 : k1 = k2
        · simp [setKey, lookupKey, hk, hk2, h]
        · simp [setKey, lookupKey, hk, hk2, ih]

theorem composerMergeList_lookup :
    ∀ (data fields : List (String × JValue)), (keysOf data).Nodup →
      (∀ k v, lookupKey data k = some v →
        lookupKey (composerMergeList fields data) k = some v) ∧
      (∀ k, lookupKey data k = none →
        lookupKey (composerMergeList fields data) k = lookupKey fields k)
  | [], fields, _ => by
      constructor
      · intro k v h
        simp [lookupKey] at h
      · intro k _
        simp [composerMergeList]
  | (k0, v0) :: rest, fields, hnd => by
      rw [keysOf_cons] at hnd
      have hk0rest : k0 ∉ keysOf rest := (List.nodup_cons.mp hnd).1
      have hndrest : (keysOf rest).Nodup := (List.nodup_cons.mp hnd).2
      have ih := composerMergeList_lookup rest (setKey fields k0 v0) hndrest
      constructor
      · intro k v h
        by_cases hk : k0 = k
        · subst hk
          simp [lookupKey] at h
          subst h
          rw [composerMergeList]
          have hnone : lookupKey rest k0 = none :=
            lookupKey_eq_none_iff.mpr hk0rest
          rw [ih.2 k0 hnone, lookupKey_setKey_self]
        · rw [composerMergeList]
          simp [lookupKey, hk] at h
          exact ih.1 k v h
      · intro k h
        by_cases hk : k0 = k
        · subst hk
          simp [lookupKey] at h
        · rw [composerMergeList]
          simp [lookupKey, hk] at h
          rw [ih.2 k h, lookupKey_setKey_other _ _ (Ne.symm hk)]

/-- C1 counterexample: a `Composer._handleResult` call with `result.data`
defined and the target slot not nulled does **not** deep-merge — with
`fields.user = { name: "x" }` already present and `result.data.user =
{ email: "y" }` incoming, the Composer leaves `user = { email: "y" }`
(the `name` subtree contributed by the other subschema is lost), whereas
the deep merge described by the claim (and implemented by
`Executor._deepMerge`) yields `user = { name: "x", email: "y" }`. -/
theorem c1_counterexample :
    lookupKey
        (handleResultRoot
            ⟨[("user", JValue.objV false [("name", JValue.strV "x")])], [],
              false⟩
            ⟨some [("user", JValue.objV false [("email", JValue.strV "y")])],
              none⟩).fields "user" =
      some (JValue.objV false [("email", JValue.strV "y")]) ∧
    lookupKey
        (deepMergeList [("user", JValue.objV false [("name", JValue.strV "x")])]
          [("user", JValue.objV false [("email", JValue.strV "y")])])
        "user" =
      some
        (JValue.objV false
          [("name", JValue.strV "x"), ("email", JValue.strV "y")]) ∧
    JValue.objV false [("email", JValue.strV "y")] ≠
      JValue.objV false
        [("name", JValue.strV "x"), ("email", JValue.strV "y")] := by
  refine ⟨?_, ?_, ?_⟩
  · simp [handleResultRoot, composerMergeList, setKey, lookupKey]
  · simp [deepMergeList, deepMergeEntry, lookupKey, setKey]
  · simp

/-- C1 amended: for every call of the Composer's `_handleResult` where
`result.data` is defined and the target slot has not been nulled, each
`(key, value)` entry of `result.data` is written into the target fields
map by plain assignment: afterwards the fields map holds exactly the
incoming value at each key of `result.data` (the incoming value replaces
any existing entry wholesale; no recursive per-sub-key merge is
performed) and is unchanged at every other key. -/
theorem c1_amended_assignment_merge (s : ComposerState) (result : ResultModel)
    (data : List (String × JValue)) (hdata : result.data = some data)
    (hnodup : (keysOf data).Nodup) (hnulled : s.nulled = false) :
    (∀ k v, lookupKey data k = some v →
      lookupKey (handleResultRoot s result).fields k = some v) ∧
    (∀ k, lookupKey data k = none →
      lookupKey (handleResultRoot s result).fields k = lookupKey s.fields k) := by
  have hfields : (handleResultRoot s result).fields =
      composerMergeList s.fields data := by
    unfold handleResultRoot
    cases he : result.errors <;> simp [he, hnulled, hdata]
  rw [hfields]
  exact composerMergeList_lookup data s.fields hnodup

/-- Witness for the amended C1 at a concrete result. -/
theorem c1_amended_assignment_merge_witness :
    lookupKey
        (handleResultRoot ⟨[("a", JValue.intV 1)], [], false⟩
            ⟨some [("b", JValue.intV 2)], none⟩).fields "b" =
      some (JValue.intV 2) :=
  (c1_amended_assignment_merge ⟨[("a", JValue.intV 1)], [], false⟩
        ⟨some [("b", JValue.intV 2)], none⟩ [("b", JValue.intV 2)] rfl
        (by simp [keysOf]) rfl).1
    "b" (JValue.intV 2) (by simp [lookupKey])

/-! ## C2: root `data: null` nulls the response but preserves all errors -/

theorem handleResultRoot_errors (s : ComposerState) (r : ResultModel) :
    (handleResultRoot s r).errors = s.errors ++ r.errors.getD [] := by
  unfold handleResultRoot
  cases he : r.errors with
  | none =>
      cases hd : r.data <;> by_cases hn : s.nulled <;> simp [he, hd, hn]
  | some errs =>
      cases hd : r.data <;> by_cases hn : s.nulled <;> simp [he, hd, hn]

theorem handleResultRoot_nulled_mono (s : ComposerState) (r : ResultModel)
    (h : s.nulled = true) : (handleResultRoot s r).nulled = true := by
  unfold handleResultRoot
  cases he : r.errors <;> simp [he, h]

theorem handleResultRoot_nulled_of_data_none (s : ComposerState)
    (r : ResultModel) (h : r.data = none) :
    (handleResultRoot s r).nulled = true := by
  unfold handleResultRoot
  cases he : r.errors <;> by_cases hn : s.nulled <;> simp [he, h, hn]

theorem handleResultRoot_fields_of_data_none (s : ComposerState)
    (r : ResultModel) (h : r.data = none) :
    (handleResultRoot s r).fields = s.fields := by
  unfold handleResultRoot
  cases he : r.errors <;> by_cases hn : s.nulled <;> simp [he, h, hn]

theorem foldl_handleResultRoot_errors (results : List ResultModel) :
    ∀ s : ComposerState,
      (results.foldl handleResultRoot s).errors =
        s.errors ++ (results.map fun r => r.errors.getD []).flatten := by
  induction results with
  | nil => intro s; simp
  | cons r rest ih =>
      intro s
      rw [List.foldl_cons, ih, handleResultRoot_errors]
      simp

theorem foldl_handleResultRoot_nulled_mono (results : List ResultModel) :
    ∀ s : ComposerState, s.nulled = true →
      (results.foldl handleResultRoot s).nulled = true := by
  induction results with
  | nil => intro s h; simpa using h
  | cons r rest ih =>
      intro s h
      rw [List.foldl_cons]
      exact ih _ (handleResultRoot_nulled_mono s r h)

/-- C2: if some subschema result handled at the empty path has
`result.data` equal to `null` or `undefined`, then (i) the Composer ends
with its `nulled` flag set, (ii) handling such a result never touches
the merged fields (the merge is discarded), (iii) the final composed
response has `data: null`, and (iv) the accumulated error list is
exactly the concatenation of every result's `errors` — errors are
appended before the null-propagation gate is consulted, so nulling loses
none of them. -/
theorem c2_root_null_propagation (results : List ResultModel)
    (h : ∃ r ∈ results, r.data = none) :
    (handleResultsRoot results).nulled = true ∧
    (∀ (s : ComposerState) (r : ResultModel), r.data = none →
      (handleResultRoot s r).fields = s.fields) ∧
    (buildResponse (handleResultsRoot results)).data = none ∧
    (handleResultsRoot results).errors =
      (results.map fun r => r.errors.getD []).flatten := by
  have hnulled : (handleResultsRoot results).nulled = true := by
    obtain ⟨r, hmem, hdata⟩ := h
    obtain ⟨l1, l2, rfl⟩ := List.append_of_mem hmem
    unfold handleResultsRoot
    rw [List.foldl_append, List.foldl_cons]
    exact foldl_handleResultRoot_nulled_mono l2 _
      (handleResultRoot_nulled_of_data_none _ r hdata)
  refine ⟨hnulled, ?_, ?_, ?_⟩
  · intro s r hr
    exact handleResultRoot_fields_of_data_none s r hr
  · unfold buildResponse
    by_cases he : (handleResultsRoot results).errors.length > 0 <;>
      simp [hnulled, he]
  · unfold handleResultsRoot
    rw [foldl_handleResultRoot_errors]
    simp [composerInitState]

/-- Witness for C2: two results, the first reporting an error with
`data: null`, the second with data; the response has `data: null` and
keeps both results' errors. -/
theorem c2_root_null_propagation_witness :
    (handleResultsRoot
        [⟨none, some ["boom"]⟩, ⟨some [("a", JValue.intV 1)], some ["late"]⟩]).nulled =
        true ∧
    (buildResponse
        (handleResultsRoot
          [⟨none, some ["boom"]⟩,
            ⟨some [("a", JValue.intV 1)], some ["late"]⟩])).data = none ∧
    (handleResultsRoot
        [⟨none, some ["boom"]⟩,
          ⟨some [("a", JValue.intV 1)], some ["late"]⟩]).errors =
      ["boom", "late"] := by
  have h := c2_root_null_propagation
    [⟨none, some ["boom"]⟩, ⟨some [("a", JValue.intV 1)], some ["late"]⟩]
    ⟨⟨none, some ["boom"]⟩, by simp, rfl⟩
  refine ⟨h.1, h.2.2.1, ?_⟩
  rw [h.2.2.2]
  simp

/-! ## C8: `buildExecutionContext` operation-selection errors -/

theorem selectOperationLoop_named_no_match (x : String) :
    ∀ (defs : List DefinitionModel) (op0 : Option (Option String)),
      hasOperationNamed defs x = false →
      selectOperationLoop (some x) op0 defs = .ok op0 := by
  intro defs
  induction defs with
  | nil => intro op0 _; rfl
  | cons d rest ih =>
      intro op0 h
      cases d with
      | operationDef n =>
          have hn : (n = some x) = False := by
            by_contra hc
            simp [hasOperationNamed] at h hc
            exact h.1 hc
          simp [selectOperationLoop, hn]
          exact ih op0 (by simp [hasOperationNamed] at h ⊢; exact h.2)
      | fragmentDef n =>
          simp [selectOperationLoop]
          exact ih op0 (by simpa [hasOperationNamed] using h)
      | otherDef =>
          simp [selectOperationLoop]
          exact ih op0 (by simpa [hasOperationNamed] using h)

theorem selectOperationLoop_second_operation :
    ∀ (defs : List DefinitionModel) (n : Option String),
      countOperations defs ≥ 1 →
      selectOperationLoop none (some n) defs =
        .error
          ["Must provide operation name if query contains multiple operations."] := by
  intro defs
  induction defs with
  | nil => intro n h; simp [countOperations] at h
  | cons d rest ih =>
      intro n h
      cases d with
      | operationDef m => simp [selectOperationLoop]
      | fragmentDef m =>
          simp [countOperations, List.countP_cons] at h
          exact ih n (by simpa [countOperations] using h)
      | otherDef =>
          simp [countOperations, List.countP_cons] at h
          exact ih n (by simpa [countOperations] using h)

theorem countOperations_cons_op (m : Option String)
    (rest : List DefinitionModel) :
    countOperations (.operationDef m :: rest) = countOperations rest + 1 := by
  simp [countOperations, List.countP_cons]

theorem selectOperationLoop_multi :
    ∀ defs : List DefinitionModel, countOperations defs ≥ 2 →
      selectOperationLoop none none defs =
        .error
          ["Must provide operation name if query contains multiple operations."] := by
  intro defs
  induction defs with
  | nil => intro h; simp [countOperations] at h
  | cons d rest ih =>
      intro h
      cases d with
      | operationDef m =>
          rw [countOperations_cons_op] at h
          simp [selectOperationLoop]
          exact selectOperationLoop_second_operation rest m (by omega)
      | fragmentDef m =>
          simp [countOperations, List.countP_cons] at h
          exact ih (by simpa [countOperations] using h)
      | otherDef =>
          simp [countOperations, List.countP_cons] at h
          exact ih (by simpa [countOperations] using h)

theorem selectOperationLoop_no_operations :
    ∀ (defs : List DefinitionModel) (op0 : Option (Option String)),
      countOperations defs = 0 →
      selectOperationLoop none op0 defs = .ok op0 := by
  intro defs
  induction defs with
  | nil => intro op0 _; rfl
  | cons d rest ih =>
      intro op0 h
      cases d with
      | operationDef m => simp [countOperations, List.countP_cons] at h
      | fragmentDef m =>
          simp [selectOperationLoop]
          exact ih op0 (by simpa [countOperations, List.countP_cons] using h)
      | otherDef =>
          simp [selectOperationLoop]
          exact ih op0 (by simpa [countOperations, List.countP_cons] using h)

/-- C8: `buildExecutionContext` returns exactly one error with message
`Must provide operation name if query contains multiple operations.`
when the document has more than one operation definition and no
`operationName`; exactly one error `Unknown operation named "X".` when
an `operationName` X matches no operation definition; and exactly one
error `Must provide an operation.` when no `operationName` is supplied
and the document has no operation definition. -/
theorem c8_build_execution_context_errors (defs : List DefinitionModel) :
    (countOperations defs ≥ 2 →
      selectOperation defs none =
        .error
          ["Must provide operation name if query contains multiple operations."]) ∧
    (∀ x, hasOperationNamed defs x = false →
      selectOperation defs (some x) =
        .error [s!"Unknown operation named \x22{x}\x22."]) ∧
    (countOperations defs = 0 →
      selectOperation defs none = .error ["Must provide an operation."]) := by
  refine ⟨?_, ?_, ?_⟩
  · intro h
    unfold selectOperation
    rw [selectOperationLoop_multi defs h]
  · intro x h
    unfold selectOperation
    rw [selectOperationLoop_named_no_match x defs none h]
  · intro h
    unfold selectOperation
    rw [selectOperationLoop_no_operations defs none h]

/-- Witness for C8 at concrete documents: two anonymous operations with
no name, a named lookup that misses, and an operation-free document. -/
theorem c8_build_execution_context_errors_witness :
    selectOperation [.operationDef none, .operationDef (some "A")] none =
        .error
          ["Must provide operation name if query contains multiple operations."] ∧
    selectOperation [.operationDef (some "A")] (some "X") =
        .error ["Unknown operation named \x22X\x22."] ∧
    selectOperation [.fragmentDef "F"] none =
        .error ["Must provide an operation."] :=
  ⟨(c8_build_execution_context_errors _).1 (by simp [countOperations]),
    by
      have h := (c8_build_execution_context_errors
        [.operationDef (some "A")]).2.1 "X" (by simp [hasOperationNamed])
      simpa using h,
    (c8_build_execution_context_errors _).2.2 (by simp [countOperations])⟩

/-! ## C5: the Composer's outgoing follow-up documents -/

/-- C5 counterexample: for the original operation `mutation M($v)` with
one fragment definition `F`, the follow-up document the Composer sends
(built by `Composer._createDocument`, the only document constructor the
Composer calls before invoking `subschema.executor`) is **not** the
document the claim describes: the operation header is replaced by an
anonymous `query` header with no variable definitions, and no fragment
definitions are appended. -/
theorem c5_counterexample :
    Composer_createDocument ([7] : List Nat) ≠
      specOutgoingDocument ⟨"mutation", some "M", some ["v"]⟩ [("F", [3])]
        [7] := by
  simp [Composer_createDocument, specOutgoingDocument]

/-- C5 amended: every follow-up document the Composer sends to a
subschema executor is a single-definition document whose sole definition
is an anonymous `query` operation (no name, no variable definitions)
whose selection set is exactly the fetch's field nodes; neither the
original operation header nor the fragment definitions are included.
(The Executor variant's `_createDocument` does produce the
header-preserving, fragment-appending document the specification
describes.) -/
theorem c5_amended_outgoing_documents {Sel : Type} (op : OperationHeader)
    (fragments : List (String × List Sel)) (selections : List Sel) :
    (Composer_createDocument selections).definitions =
        [.operationDef "query" none none selections] ∧
    Executor_createDocument op fragments selections =
      specOutgoingDocument op fragments selections :=
  ⟨rfl, rfl⟩

/-! ## C3: leaf-field subschema choice -/

theorem lookupPlan_setPlan_self (plans : List (Nat × SubschemaPlanModel))
    (s : Nat) (p : SubschemaPlanModel) :
    lookupPlan (setPlan plans s p) s = some p := by
  induction plans with
  | nil => simp [setPlan, lookupPlan]
  | cons hd tl ih =>
      obtain ⟨k, q⟩ := hd
      by_cases hk : k = s
      · simp [setPlan, lookupPlan, hk]
      · simp [setPlan, lookupPlan, hk, ih]

theorem lookupPlan_setPlan_other (plans : List (Nat × SubschemaPlanModel))
    {s s2 : Nat} (p : SubschemaPlanModel) (h : s2 ≠ s) :
    lookupPlan (setPlan plans s p) s2 = lookupPlan plans s2 := by
  induction plans with
  | nil => simp [setPlan, lookupPlan, Ne.symm h]
  | cons hd tl ih =>
      obtain ⟨k, q⟩ := hd
      by_cases hk : k = s
      · subst hk
        simp [setPlan, lookupPlan, Ne.symm h]
      · by_cases hk2 : k = s2
        · simp [setPlan, lookupPlan, hk, hk2, h]
        · simp [setPlan, lookupPlan, hk, hk2, ih]

theorem lookupPlan_append_sing_other (plans : List (Nat × SubschemaPlanModel))
    {s s2 : Nat} (p : SubschemaPlanModel) (h : s2 ≠ s) :
    lookupPlan (plans ++ [(s, p)]) s2 = lookupPlan plans s2 := by
  induction plans with
  | nil => simp [lookupPlan, Ne.symm h]
  | cons hd tl ih =>
      obtain ⟨k, q⟩ := hd
      by_cases hk : k = s2
      · simp [lookupPlan, hk]
      · simp [lookupPlan, hk, ih]

theorem getSubschemaAndPlanLoop_map_fst
    (plans : List (Nat × SubschemaPlanModel)) :
    ∀ l : List Nat,
      (getSubschemaAndPlanLoop plans l).map Prod.fst =
        l.find? fun s => (lookupPlan plans s).isSome := by
  intro l
  induction l with
  | nil => simp [getSubschemaAndPlanLoop]
  | cons s rest ih =>
      cases hp : lookupPlan plans s with
      | some p => simp [getSubschemaAndPlanLoop, hp, List.find?]
      | none => simp [getSubschemaAndPlanLoop, hp, List.find?, ih]

theorem getSubschemaAndPlanLoop_lookup
    (plans : List (Nat × SubschemaPlanModel)) :
    ∀ (l : List Nat) (s : Nat) (p : SubschemaPlanModel),
      getSubschemaAndPlanLoop plans l = some (s, p) →
      lookupPlan plans s = some p := by
  intro l
  induction l with
  | nil => intro s p h; simp [getSubschemaAndPlanLoop] at h
  | cons s0 rest ih =>
      intro s p h
      cases hp : lookupPlan plans s0 with
      | some q =>
          simp [getSubschemaAndPlanLoop, hp] at h
          rw [h.1, h.2] at hp
          exact hp
      | none =>
          simp [getSubschemaAndPlanLoop, hp] at h
          exact ih s p h

/-- The schema used by the C3 counterexample: one parent type `Q` with a
single leaf field `a` resolvable by subschemas 1 and 2 (in that set
order). -/
def c3schema : SchemaModel where
  subschemaSets t f := if t = "Q" ∧ f = "a" then some [1, 2] else none
  fieldTypeName _ _ := none
  isAbstract _ := false
  getPossibleTypes _ := []
  isSubTypeOf _ _ := false
  isObjectTypeName _ := false

/-- The plan state of the C3 counterexample: subschema 1 already has a
(empty) SubschemaPlan entry; subschema 2 — the originating subschema —
does not. -/
def c3plans : List (Nat × SubschemaPlanModel) := [(1, ⟨1, none, []⟩)]

/-- C3 counterexample: with candidates `{1, 2}`, `fromSubschema = 2`
among them, and an existing plan entry for `1` only, the claimed rule
("prefer `fromSubschema` if it is among the candidates") chooses `2`,
but `Planner._addFieldToFieldPlan` appends the leaf field to subschema
1's plan (`_getSubschemaAndPlan` never consults `fromSubschema`):
subschema 2 ends with no plan at all. -/
theorem c3_counterexample :
    specLeafChoiceRule (some 2) [1, 2] c3plans = some 2 ∧
    lookupPlan (addLeafFieldToFieldPlan c3schema c3plans (some 2) "Q" none "a")
        2 = none ∧
    lookupPlan (addLeafFieldToFieldPlan c3schema c3plans (some 2) "Q" none "a")
        1 = some ⟨1, none, [.field none "a" none]⟩ := by
  refine ⟨?_, ?_, ?_⟩
  · simp [specLeafChoiceRule, c3plans]
  · simp [addLeafFieldToFieldPlan, c3schema, c3plans, getSubschemaAndPlan,
      getSubschemaAndPlanLoop, lookupPlan, setPlan]
  · simp [addLeafFieldToFieldPlan, c3schema, c3plans, getSubschemaAndPlan,
      getSubschemaAndPlanLoop, lookupPlan, setPlan]

/-- C3 amended: for every leaf field whose candidate set under the
parent type is non-empty, the subschema that receives the field is
chosen by the rule *prefer the first candidate (in candidate-set
insertion order) that already has a SubschemaPlan entry in the plan,
else take the first candidate*; `fromSubschema` is not consulted for the
choice (it is only recorded as the originating subschema of a newly
created SubschemaPlan).  The field is appended to the chosen subschema's
field nodes and every other subschema's plan is unchanged. -/
theorem c3_amended_leaf_choice (schema : SchemaModel)
    (plans : List (Nat × SubschemaPlanModel)) (fromSubschema : Option Nat)
    (parentType : String) (al : Option String) (name : String)
    (subschemas : List Nat)
    (hset : schema.subschemaSets parentType name = some subschemas)
    (hne : subschemas ≠ []) :
    ∃ s, amendedLeafChoiceRule subschemas plans = some s ∧
      lookupPlan
          (addLeafFieldToFieldPlan schema plans fromSubschema parentType al
            name) s =
        some
          (match lookupPlan plans s with
            | some p => { p with fieldNodes := p.fieldNodes ++ [.field al name none] }
            | none => ⟨s, fromSubschema, [.field al name none]⟩) ∧
      ∀ s2, s2 ≠ s →
        lookupPlan
            (addLeafFieldToFieldPlan schema plans fromSubschema parentType al
              name) s2 =
          lookupPlan plans s2 := by
  unfold addLeafFieldToFieldPlan
  rw [hset]
  cases hloop : getSubschemaAndPlanLoop plans subschemas with
  | some sp =>
      obtain ⟨s, p⟩ := sp
      have hfind : subschemas.find? (fun s => (lookupPlan plans s).isSome) =
          some s := by
        rw [← getSubschemaAndPlanLoop_map_fst, hloop]
        rfl
      have hp : lookupPlan plans s = some p :=
        getSubschemaAndPlanLoop_lookup plans subschemas s p hloop
      refine ⟨s, ?_, ?_, ?_⟩
      · simp [amendedLeafChoiceRule, hfind]
      · simp [getSubschemaAndPlan, hloop, hp, lookupPlan_setPlan_self]
      · intro s2 hs2
        simp [getSubschemaAndPlan, hloop, lookupPlan_setPlan_other _ _ hs2]
  | none =>
      have hfind : subschemas.find? (fun s => (lookupPlan plans s).isSome) =
          none := by
        rw [← getSubschemaAndPlanLoop_map_fst, hloop]
        rfl
      cases subschemas with
      | nil => exact absurd rfl hne
      | cons s tail =>
          have hs : lookupPlan plans s = none := by
            have := List.find?_eq_none.mp hfind s (List.mem_cons_self _ _)
            cases hl : lookupPlan plans s with
            | none => rfl
            | some q => rw [hl] at this; simp at this
          refine ⟨s, ?_, ?_, ?_⟩
          · simp [amendedLeafChoiceRule, hfind]
          · simp [getSubschemaAndPlan, hloop, hs, lookupPlan_setPlan_self]
          · intro s2 hs2
            simp [getSubschemaAndPlan, hloop,
              lookupPlan_setPlan_other _ _ hs2,
              lookupPlan_append_sing_other _ _ hs2]

/-- Witness for the amended C3: concrete schema and plan state. -/
theorem c3_amended_leaf_choice_witness :
    ∃ s, amendedLeafChoiceRule [1, 2] c3plans = some s ∧
      lookupPlan (addLeafFieldToFieldPlan c3schema c3plans (some 2) "Q" none
          "a") s =
        some
          (match lookupPlan c3plans s with
            | some p =>
                { p with fieldNodes := p.fieldNodes ++ [.field none "a" none] }
            | none => ⟨s, some 2, [.field none "a" none]⟩) ∧
      ∀ s2, s2 ≠ s →
        lookupPlan (addLeafFieldToFieldPlan c3schema c3plans (some 2) "Q" none
            "a") s2 =
          lookupPlan c3plans s2 :=
  c3_amended_leaf_choice c3schema c3plans (some 2) "Q" none "a" [1, 2]
    (by simp [c3schema]) (by simp)

/-! ## C4: position of the injected `__stitching__typename` field -/

/-- The schema used by the C4 counterexample: parent type `Q` with leaf
field `a` resolvable by subschema 1 and leaf field `b` resolvable only
by subschema 2. -/
def c4schema : SchemaModel where
  subschemaSets t f :=
    if t = "Q" ∧ f = "a" then some [1]
    else if t = "Q" ∧ f = "b" then some [2] else none
  fieldTypeName _ _ := none
  isAbstract _ := false
  getPossibleTypes _ := []
  isSubTypeOf _ _ := false
  isObjectTypeName _ := false

/-- C4 counterexample: splitting `{ a b }` for subschema 1 with
`fromSubschema` undefined leaves `b` in `otherSelections` (non-empty),
so the synthetic field is injected — but it is the **last** element of
`ownSelections` (`appendToArray`), not the first: the first element is
the field `a`. -/
theorem c4_counterexample :
    (createSelectionSplit c4schema "Q"
        [.field none "a" none, .field none "b" none] 1 none).otherSelections ≠
        [] ∧
    (createSelectionSplit c4schema "Q"
        [.field none "a" none, .field none "b" none] 1 none).ownSelections.head? ≠
      some stitchingTypenameField ∧
    (createSelectionSplit c4schema "Q"
        [.field none "a" none, .field none "b" none] 1
          none).ownSelections.getLast? =
      some stitchingTypenameField := by
  refine ⟨?_, ?_, ?_⟩ <;>
    simp [createSelectionSplit, processSelectionsForSelectionSplit,
      addFieldToSelectionSplit, c4schema, stitchingTypenameField]

/-- C4 amended: for every selection split performed with `fromSubschema`
undefined whose `otherSelections` end non-empty, the field `__typename`
aliased as `__stitching__typename` is **appended** to `ownSelections`
(it is the last element of the returned `ownSelections`); when
`fromSubschema` is defined or `otherSelections` is empty, no such field
is added. -/
theorem c4_amended_typename_appended (schema : SchemaModel)
    (parentType : String) (selections : List SelectionModel) (subschema : Nat)
    (fromSubschema : Option Nat) :
    (fromSubschema = none →
      (processSelectionsForSelectionSplit schema ⟨[], []⟩ subschema none
          parentType selections).otherSelections ≠ [] →
      createSelectionSplit schema parentType selections subschema none =
        ⟨(processSelectionsForSelectionSplit schema ⟨[], []⟩ subschema none
              parentType selections).ownSelections ++
            [stitchingTypenameField],
          (processSelectionsForSelectionSplit schema ⟨[], []⟩ subschema none
              parentType selections).otherSelections⟩) ∧
    ((fromSubschema ≠ none ∨
        (processSelectionsForSelectionSplit schema ⟨[], []⟩ subschema
            fromSubschema parentType selections).otherSelections = []) →
      createSelectionSplit schema parentType selections subschema
          fromSubschema =
        processSelectionsForSelectionSplit schema ⟨[], []⟩ subschema
          fromSubschema parentType selections) := by
  constructor
  · intro hfrom hother
    subst hfrom
    have hpos :
        0 < (processSelectionsForSelectionSplit schema ⟨[], []⟩ subschema none
            parentType selections).otherSelections.length :=
      List.length_pos.mpr hother
    rw [createSelectionSplit]
    simp [hpos]
  · intro hcond
    rw [createSelectionSplit]
    rcases hcond with hfrom | hother
    · simp [hfrom]
    · simp [hother]

/-- Witness for the amended C4: the injection case at the C4 schema, and
the no-injection case for a defined `fromSubschema`. -/
theorem c4_amended_typename_appended_witness :
    createSelectionSplit c4schema "Q"
        [.field none "a" none, .field none "b" none] 1 none =
      ⟨(processSelectionsForSelectionSplit c4schema ⟨[], []⟩ 1 none "Q"
            [.field none "a" none, .field none "b" none]).ownSelections ++
          [stitchingTypenameField],
        (processSelectionsForSelectionSplit c4schema ⟨[], []⟩ 1 none "Q"
            [.field none "a" none, .field none "b" none]).otherSelections⟩ ∧
    createSelectionSplit c4schema "Q"
        [.field none "a" none, .field none "b" none] 1 (some 1) =
      processSelectionsForSelectionSplit c4schema ⟨[], []⟩ 1 (some 1) "Q"
        [.field none "a" none, .field none "b" none] :=
  ⟨(c4_amended_typename_appended c4schema "Q"
        [.field none "a" none, .field none "b" none] 1 none).1 rfl
      (by
        simp [processSelectionsForSelectionSplit, addFieldToSelectionSplit,
          c4schema]),
    (c4_amended_typename_appended c4schema "Q"
        [.field none "a" none, .field none "b" none] 1 (some 1)).2
      (.inl (by simp))⟩

/-! ## C6: `_createStitchPlan` iterates the possible runtime types -/

theorem assocLookup_mapSet_self {β : Type} (xs : List (String × β))
    (k : String) (v : β) : assocLookup (mapSet xs k v) k = some v := by
  induction xs with
  | nil => simp [mapSet, assocLookup]
  | cons hd tl ih =>
      obtain ⟨k1, v1⟩ := hd
      by_cases hk : k1 = k
      · simp [mapSet, assocLookup, hk]
      · simp [mapSet, assocLookup, hk, ih]

theorem assocLookup_mapSet_other {β : Type} (xs : List (String × β))
    {k k2 : String} (v : β) (h : k2 ≠ k) :
    assocLookup (mapSet xs k v) k2 = assocLookup xs k2 := by
  induction xs with
  | nil => simp [mapSet, assocLookup, Ne.symm h]
  | cons hd tl ih =>
      obtain ⟨k1, v1⟩ := hd
      by_cases hk : k1 = k
      · subst hk
        simp [mapSet, assocLookup, Ne.symm h]
      · by_cases hk2 : k1 = k2
        · simp [mapSet, assocLookup, hk, hk2, h]
        · simp [mapSet, assocLookup, hk, hk2, ih]

theorem fold_assocLookup_not_mem {β : Type}
    (g : List (String × β) → String → List (String × β))
    (hother : ∀ acc t t2, t2 ≠ t → assocLookup (g acc t) t2 = assocLookup acc t2) :
    ∀ (l : List String) (acc : List (String × β)) (t : String), t ∉ l →
      assocLookup (l.foldl g acc) t = assocLookup acc t := by
  intro l
  induction l with
  | nil => intro acc t _; rfl
  | cons t0 rest ih =>
      intro acc t ht
      rw [List.foldl_cons,
        ih (g acc t0) t (fun hm => ht (List.mem_cons_of_mem _ hm)),
        hother acc t0 t (fun he => ht (he ▸ List.mem_cons_self _ _))]

theorem fold_assocLookup_mem {β : Type}
    (g : List (String × β) → String → List (String × β))
    (r : String → Option β → Option β)
    (hother : ∀ acc t t2, t2 ≠ t → assocLookup (g acc t) t2 = assocLookup acc t2)
    (hself : ∀ acc t, assocLookup (g acc t) t = r t (assocLookup acc t)) :
    ∀ (l : List String) (acc : List (String × β)) (t : String), t ∈ l →
      l.Nodup → assocLookup (l.foldl g acc) t = r t (assocLookup acc t) := by
  intro l
  induction l with
  | nil => intro acc t ht; simp at ht
  | cons t0 rest ih =>
      intro acc t ht hnd
      rw [List.foldl_cons]
      rcases List.mem_cons.mp ht with he | hm
      · subst he
        rw [fold_assocLookup_not_mem g hother rest (g acc t) t
            (List.nodup_cons.mp hnd).1,
          hself]
      · exact (ih (g acc t0) t hm (List.nodup_cons.mp hnd).2).trans
          (by
            rw [hother acc t0 t]
            intro he
            exact (List.nodup_cons.mp hnd).1 (he ▸ hm))

/-- C6: `_createStitchPlan` iterates exactly over the possible runtime
types of the named return type (the type itself when concrete,
`getPossibleTypes` when abstract), and a type is mapped to a
supplemental FieldPlan iff that type is a possible runtime type and its
supplemental plan (built from the collected sub-fields of
`otherSelections`) is non-empty — it has at least one subschema plan or
at least one stitch plan.  Consequently, an abstract type with zero
satisfying runtime types yields an empty StitchPlan. -/
theorem c6_stitch_plan_possible_types {StitchSub : Type}
    (schema : SchemaModel) (parentType : String)
    (otherSelections : List SelectionModel) (subschema : Nat)
    (f : String → List SelectionModel → Nat → FieldPlanModel StitchSub)
    (hnodup : (possibleTypesFor schema parentType).Nodup) :
    (∀ t fp,
      assocLookup
          (createStitchPlan schema parentType otherSelections subschema f)
          t = some fp ↔
        (t ∈ possibleTypesFor schema parentType ∧
          fp = f t (collectSubFields schema t otherSelections []) subschema ∧
          ((f t (collectSubFields schema t otherSelections []) subschema).subschemaPlans ≠
              [] ∨
            (f t (collectSubFields schema t otherSelections []) subschema).stitchPlans ≠
              []))) ∧
    (schema.isAbstract parentType = true →
      schema.getPossibleTypes parentType = [] →
      createStitchPlan schema parentType otherSelections subschema f = []) := by
  have hother : ∀ (acc : List (String × FieldPlanModel StitchSub)) t t2,
      t2 ≠ t →
      assocLookup
          ((fun stitchPlan t =>
              let fieldNodes := collectSubFields schema t otherSelections []
              let fieldPlan := f t fieldNodes subschema
              if fieldPlan.subschemaPlans.length > 0 ∨
                  fieldPlan.stitchPlans.length > 0 then
                mapSet stitchPlan t fieldPlan
              else stitchPlan)
            acc t) t2 =
        assocLookup acc t2 := by
    intro acc t t2 hne
    by_cases hc :
        (f t (collectSubFields schema t otherSelections []) subschema).subschemaPlans.length >
            0 ∨
          (f t (collectSubFields schema t otherSelections []) subschema).stitchPlans.length >
            0
    · simp only [hc, if_pos]
      exact assocLookup_mapSet_other acc _ hne
    · simp only [hc, if_neg, not_false_iff]
  have hself : ∀ (acc : List (String × FieldPlanModel StitchSub)) t,
      assocLookup
          ((fun stitchPlan t =>
              let fieldNodes := collectSubFields schema t otherSelections []
              let fieldPlan := f t fieldNodes subschema
              if fieldPlan.subschemaPlans.length > 0 ∨
                  fieldPlan.stitchPlans.length > 0 then
                mapSet stitchPlan t fieldPlan
              else stitchPlan)
            acc t) t =
        (fun t o =>
            if (f t (collectSubFields schema t otherSelections []) subschema).subschemaPlans.length >
                  0 ∨
                (f t (collectSubFields schema t otherSelections []) subschema).stitchPlans.length >
                  0 then
              some (f t (collectSubFields schema t otherSelections []) subschema)
            else o) t
          (assocLookup acc t) := by
    intro acc t
    by_cases hc :
        (f t (collectSubFields schema t otherSelections []) subschema).subschemaPlans.length >
            0 ∨
          (f t (collectSubFields schema t otherSelections []) subschema).stitchPlans.length >
            0
    · simp only [hc, if_pos]
      exact assocLookup_mapSet_self acc _ _
    · simp only [hc, if_neg, not_false_iff]
  constructor
  · intro t fp
    constructor
    · intro hsome
      unfold createStitchPlan at hsome
      by_cases hmem : t ∈ possibleTypesFor schema parentType
      · rw [fold_assocLookup_mem _ _ hother hself _ [] t hmem hnodup] at hsome
        by_cases hc :
            (f t (collectSubFields schema t otherSelections [])
                  subschema).subschemaPlans.length > 0 ∨
              (f t (collectSubFields schema t otherSelections [])
                  subschema).stitchPlans.length > 0
        · simp only [hc, if_pos] at hsome
          refine ⟨hmem, by injection hsome.symm, ?_⟩
          rcases hc with hc | hc
          · exact .inl (by intro he; rw [he] at hc; simp at hc)
          · exact .inr (by intro he; rw [he] at hc; simp at hc)
        · simp only [hc, if_neg, not_false_iff, assocLookup] at hsome
          exact Option.noConfusion hsome
      · rw [fold_assocLookup_not_mem _ hother _ [] t hmem] at hsome
        simp [assocLookup] at hsome
    · rintro ⟨hmem, hfp, hc⟩
      unfold createStitchPlan
      rw [fold_assocLookup_mem _ _ hother hself _ [] t hmem hnodup]
      have hc2 :
          (f t (collectSubFields schema t otherSelections [])
                subschema).subschemaPlans.length > 0 ∨
            (f t (collectSubFields schema t otherSelections [])
                subschema).stitchPlans.length > 0 := by
        rcases hc with hc | hc
        · exact .inl (by
            cases hl : (f t (collectSubFields schema t otherSelections [])
                subschema).subschemaPlans with
            | nil => exact absurd hl hc
            | cons a l => simp [hl])
        · exact .inr (by
            cases hl : (f t (collectSubFields schema t otherSelections [])
                subschema).stitchPlans with
            | nil => exact absurd hl hc
            | cons a l => simp [hl])
      simp only [hc2, if_pos]
      rw [hfp]
  · intro habs hempty
    unfold createStitchPlan possibleTypesFor
    rw [habs, hempty]
    rfl

/-- The schema of the C6 witness: abstract type `I` with possible
runtime types `A` and `B`. -/
def c6schema : SchemaModel where
  subschemaSets _ _ := none
  fieldTypeName _ _ := none
  isAbstract t := t = "I"
  getPossibleTypes t := if t = "I" then ["A", "B"] else []
  isSubTypeOf _ _ := false
  isObjectTypeName _ := false

/-- The supplemental-plan collaborator of the C6 witness: non-empty plan
for `A`, empty plan for `B`. -/
def c6f : String → List SelectionModel → Nat → FieldPlanModel Unit :=
  fun t _ _ => if t = "A" then ⟨[⟨1, none, []⟩], []⟩ else ⟨[], []⟩

/-- Witness for C6: over abstract `I`, type `A` (non-empty supplemental
plan) is entered into the stitch plan. -/
theorem c6_stitch_plan_possible_types_witness :
    assocLookup (createStitchPlan c6schema "I" [] 7 c6f) "A" =
      some ⟨[⟨1, none, []⟩], []⟩ :=
  ((c6_stitch_plan_possible_types c6schema "I" [] 7 c6f
          (by simp [possibleTypesFor, c6schema])).1 "A"
      ⟨[⟨1, none, []⟩], []⟩).mpr
    ⟨by simp [possibleTypesFor, c6schema],
      by simp [c6f, collectSubFields],
      by
        left
        simp [c6f, collectSubFields]⟩

/-! ## C7: invariant failures while collecting follow-up fetches -/

/-- C7: at a stitch point (an object value in stitched position), the
Composer raises an invariant failure (an internal error, never a user
error appended to `errors`) if and only if the object is missing the
`__stitching__typename` entry (or it is `null`), or the entry does not
name an object type of the super-schema, or the stitch tree has no
`FieldPlan` for the named type — each case producing exactly the
corresponding invariant, checked in that order; otherwise the matching
per-type `FieldPlan`'s subschema plans are all enqueued as follow-up
fetches (in subschema-plan order, carrying their field nodes, nested
stitch trees, parent and target references and the path) and the field
plan's nested stitch trees are walked. -/
theorem c7_collect_sub_fetches_invariants (schema : SchemaModel)
    (acc : List (Nat × FetchPlanM)) (parent : JValue)
    (xs : List (String × JValue)) (tree : StitchTreeM)
    (path : List PathKey) :
    (lookupKey xs "__stitching__typename" = none ∨
        lookupKey xs "__stitching__typename" = some JValue.nullV →
      collectSubFetches schema acc parent (.objV false xs) tree path =
        .error .missingTypename) ∧
    (∀ v, lookupKey xs "__stitching__typename" = some v →
      v ≠ JValue.nullV →
      schema.isObjectTypeName (markerTypeName v) = false →
      collectSubFetches schema acc parent (.objV false xs) tree path =
        .error (.notObjectType (markerTypeName v))) ∧
    (∀ v, lookupKey xs "__stitching__typename" = some v →
      v ≠ JValue.nullV →
      schema.isObjectTypeName (markerTypeName v) = true →
      assocLookup tree.fieldPlans (markerTypeName v) = none →
      collectSubFetches schema acc parent (.objV false xs) tree path =
        .error (.missingFieldPlan (markerTypeName v))) ∧
    (∀ v fp, lookupKey xs "__stitching__typename" = some v →
      v ≠ JValue.nullV →
      schema.isObjectTypeName (markerTypeName v) = true →
      assocLookup tree.fieldPlans (markerTypeName v) = some fp →
      collectSubFetches schema acc parent (.objV false xs) tree path =
        walkStitchTrees schema
          (acc ++
            fp.subschemaPlans.map fun sp =>
              (sp.1,
                ⟨sp.2.fieldNodes, sp.2.stitchTrees, parent, .objV false xs,
                  path⟩))
          xs fp.stitchTrees path) := by
  refine ⟨?_, ?_, ?_, ?_⟩
  · intro h
    rcases h with h | h <;> rw [collectSubFetches, h]
  · intro v hv hne hobj
    rw [collectSubFetches, hv]
    cases v with
    | nullV => exact absurd rfl hne
    | boolV b => simp [hobj]
    | intV n => simp [hobj]
    | strV s => simp [hobj]
    | objV a l => simp [hobj]
  · intro v hv hne hobj hplan
    rw [collectSubFetches, hv]
    cases v with
    | nullV => exact absurd rfl hne
    | boolV b => simp [hobj, hplan]
    | intV n => simp [hobj, hplan]
    | strV s => simp [hobj, hplan]
    | objV a l => simp [hobj, hplan]
  · intro v fp hv hne hobj hplan
    rw [collectSubFetches, hv]
    cases v with
    | nullV => exact absurd rfl hne
    | boolV b => simp [hobj, hplan]
    | intV n => simp [hobj, hplan]
    | strV s => simp [hobj, hplan]
    | objV a l => simp [hobj, hplan]

/-- The schema of the C7 witness: `User` is the only object type. -/
def c7schema : SchemaModel where
  subschemaSets _ _ := none
  fieldTypeName _ _ := none
  isAbstract _ := false
  getPossibleTypes _ := []
  isSubTypeOf _ _ := false
  isObjectTypeName t := t = "User"

/-- Witness for C7: a well-formed stitched object (marker `"User"`, a
field plan for `User` with one subschema plan) enqueues exactly that
subschema plan as a follow-up fetch and raises nothing. -/
theorem c7_collect_sub_fetches_invariants_witness :
    collectSubFetches c7schema [] JValue.nullV
        (JValue.objV false [("__stitching__typename", JValue.strV "User")])
        (StitchTreeM.mk
          [("User", FieldPlanC.mk [(2, SubschemaPlanC.mk [5] none)] [])])
        [] =
      .ok
        [(2,
          ⟨[5], none, JValue.nullV,
            JValue.objV false [("__stitching__typename", JValue.strV "User")],
            []⟩)] := by
  rw [(c7_collect_sub_fetches_invariants c7schema [] JValue.nullV
        [("__stitching__typename", JValue.strV "User")]
        (StitchTreeM.mk
          [("User", FieldPlanC.mk [(2, SubschemaPlanC.mk [5] none)] [])])
        []).2.2.2
      (JValue.strV "User") (FieldPlanC.mk [(2, SubschemaPlanC.mk [5] none)] [])
      (by simp [lookupKey]) (by simp) (by simp [c7schema, markerTypeName])
      (by simp [StitchTreeM.fieldPlans, assocLookup, markerTypeName])]
  simp only [FieldPlanC.subschemaPlans, FieldPlanC.stitchTrees,
    SubschemaPlanC.fieldNodes, SubschemaPlanC.stitchTrees, List.map,
    List.nil_append]
  rw [walkStitchTrees]

/-! ## C10: `add` after `close` is a silent no-op -/

theorem consolidatorApply_closed_mono {ι : Type} [DecidableEq ι]
    (s : ConsolidatorState ι) (op : ConsOp ι) (h : s.closed = true) :
    (consolidatorApply s op).closed = true := by
  cases op with
  | close => rfl
  | add it => simp [consolidatorApply, h]

theorem consolidatorRun_closed_mono {ι : Type} [DecidableEq ι]
    (ops : List (ConsOp ι)) :
    ∀ s : ConsolidatorState ι, s.closed = true →
      (consolidatorRun s ops).closed = true := by
  induction ops with
  | nil => intro s h; simpa [consolidatorRun] using h
  | cons op rest ih =>
      intro s h
      rw [consolidatorRun, List.foldl_cons]
      exact ih _ (consolidatorApply_closed_mono s op h)

theorem consolidatorRun_not_closed {ι : Type} [DecidableEq ι]
    (ops : List (ConsOp ι)) :
    ∀ s : ConsolidatorState ι, ConsOp.close ∉ ops → s.closed = false →
      (consolidatorRun s ops).closed = false := by
  induction ops with
  | nil => intro s _ h; simpa [consolidatorRun] using h
  | cons op rest ih =>
      intro s hmem h
      cases op with
      | close => exact absurd (List.mem_cons_self _ _) hmem
      | add it =>
          rw [consolidatorRun, List.foldl_cons]
          exact ih _ (fun hm => hmem (List.mem_cons_of_mem _ hm))
            (by simp [consolidatorApply, h]; split <;> simp [h])

/-- C10: calling `add(sequence)` on a Consolidator after `close()` has
been called is a silent no-op — the whole state (in particular the
source set `_asyncIterators`) is unchanged, so none of the sequence's
values are ever emitted by the driver loop (which only pulls from held
sources); a sequence added before `close()` (to a not-yet-closed
consolidator not already holding it) is inserted into the source set and
hence consumed; `close()` itself only marks the consolidator closed (and
wakes the loop), after which the loop terminates once all
currently-held sources are exhausted, emitting exactly the
processor-filtered values of the held sources. -/
theorem c10_consolidator_add_after_close {ι α : Type} [DecidableEq ι]
    (s0 : ConsolidatorState ι) (pre post : List (ConsOp ι)) (seq : ι)
    (valuesOf : ι → List α) (processor : α → Option α) :
    (consolidatorRun s0 (pre ++ ConsOp.close :: (post ++ [ConsOp.add seq])) =
      consolidatorRun s0 (pre ++ ConsOp.close :: post)) ∧
    ((consolidatorRun s0 (pre ++ [ConsOp.close])).closed = true) ∧
    (drain
        (consolidatorRun s0 (pre ++ ConsOp.close :: (post ++ [ConsOp.add seq])))
        valuesOf processor =
      drain (consolidatorRun s0 (pre ++ ConsOp.close :: post)) valuesOf
        processor) ∧
    (ConsOp.close ∉ pre → s0.closed = false →
      seq ∉ (consolidatorRun s0 pre).asyncIterators →
      (consolidatorRun s0 (pre ++ [ConsOp.add seq])).asyncIterators =
        (consolidatorRun s0 pre).asyncIterators ++ [seq]) := by
  have hclosed : (consolidatorRun s0 (pre ++ [ConsOp.close])).closed = true := by
    unfold consolidatorRun
    rw [List.foldl_append]
    rfl
  have hclosed2 :
      (consolidatorRun s0 (pre ++ ConsOp.close :: post)).closed = true := by
    unfold consolidatorRun
    rw [List.foldl_append, List.foldl_cons]
    exact consolidatorRun_closed_mono post _ (by rfl)
  have hmain :
      consolidatorRun s0 (pre ++ ConsOp.close :: (post ++ [ConsOp.add seq])) =
        consolidatorRun s0 (pre ++ ConsOp.close :: post) := by
    have heq : pre ++ ConsOp.close :: (post ++ [ConsOp.add seq]) =
        (pre ++ ConsOp.close :: post) ++ [ConsOp.add seq] := by
      simp
    rw [heq]
    have hstep :
        consolidatorRun s0 ((pre ++ ConsOp.close :: post) ++ [ConsOp.add seq]) =
          consolidatorApply (consolidatorRun s0 (pre ++ ConsOp.close :: post))
            (ConsOp.add seq) := by
      unfold consolidatorRun
      rw [List.foldl_append, List.foldl_cons, List.foldl_nil]
    rw [hstep]
    simp [consolidatorApply, hclosed2]
  refine ⟨hmain, hclosed, by rw [hmain], ?_⟩
  intro hpre h0 hseq
  have hstep : consolidatorRun s0 (pre ++ [ConsOp.add seq]) =
      consolidatorApply (consolidatorRun s0 pre) (ConsOp.add seq) := by
    unfold consolidatorRun
    rw [List.foldl_append, List.foldl_cons, List.foldl_nil]
  rw [hstep]
  have hnc : (consolidatorRun s0 pre).closed = false :=
    consolidatorRun_not_closed pre s0 hpre h0
  simp [consolidatorApply, hnc, hseq]

/-- Witness for C10 at a concrete trace over `ι = Nat`. -/
theorem c10_consolidator_add_after_close_witness :
    (consolidatorRun (consolidatorInit [1])
        ([ConsOp.add 2] ++ ConsOp.close :: ([] ++ [ConsOp.add 3])) =
      consolidatorRun (consolidatorInit [1])
        ([ConsOp.add 2] ++ ConsOp.close :: [])) ∧
    (consolidatorRun (consolidatorInit [1])
        ([ConsOp.add 2] ++ [ConsOp.add 3])).asyncIterators =
      (consolidatorRun (consolidatorInit [1]) [ConsOp.add 2]).asyncIterators ++
        [3] := by
  have h := c10_consolidator_add_after_close (consolidatorInit [1])
    [ConsOp.add 2] [] 3 (fun _ => ([] : List Nat)) (fun a => some a)
  refine ⟨h.1, ?_⟩
  have h4 := h.2.2.2 (by simp) (by simp [consolidatorInit])
    (by simp [consolidatorRun, consolidatorInit, consolidatorApply])
  simpa using h4
